import Mathlib

/-!
Verification of `terraform-provider-sops`: a shallow embedding of the
`internal/sopsencrypt` package (envelope encryption of JSON documents via
SOPS with a Vault Transit key backend) and of the scope validation in
`internal/provider/resource_encrypted_json.go`.

Sources embedded from `src/`:
  * `encrypt.go` — `EncryptOpts`, `EncryptToJSON`, `EncryptToYAML`,
    `encryptDocument`, `generateDataKey`, `wrapDataKey`,
    `GenerateSOPSConfig`.
  * `resource_encrypted_json.go` — `validateScope` and the `Create`
    control flow.

Parts of the behaviour live in external libraries (the getsops/sops tree
walker and stores, Go's `encoding/json.Indent`, `gopkg.in/yaml.v3`, the
Vault API client).  Those are modelled from the spec; each such definition
carries a doc comment starting with `Modelled from the spec:`.
-/

namespace SopsProvider

/-- Scalar JSON values: string, number, boolean, null (the leaf values of a
parsed document). -/
inductive Scalar where
  | str (s : String)
  | num (n : Int)
  | boolean (b : Bool)
  | null
deriving DecidableEq, Repr

/-- Scalar type tag recorded inside an encrypted leaf, so a decrypting party
can reconstruct the original type (spec §3, EncryptedLeaf). -/
def Scalar.typeTag : Scalar → String
  | .str _ => "str"
  | .num _ => "int"
  | .boolean _ => "bool"
  | .null => "null"

mutual
/-- Modelled from the spec: DocumentTree (§3) — the recursive value model
produced by the JSON store `LoadPlainFile`: scalars, ordered mappings,
ordered sequences. -/
inductive PlainTree where
  | scalar (v : Scalar)
  | obj (fs : PlainFields)
  | arr (xs : PlainItems)
deriving DecidableEq, Repr

/-- Ordered key/value pairs of a mapping (keys in document order). -/
inductive PlainFields where
  | nil
  | cons (key : String) (v : PlainTree) (rest : PlainFields)
deriving DecidableEq, Repr

/-- Ordered elements of a sequence. -/
inductive PlainItems where
  | nil
  | cons (v : PlainTree) (rest : PlainItems)
deriving DecidableEq, Repr
end

mutual
/-- Modelled from the spec: the encrypted document tree (§3) — every scalar
leaf selected by the scope policy is replaced by an EncryptedLeaf holding
ciphertext, per-leaf nonce (iv), authentication tag and the original
scalar type tag; unselected leaves remain plain scalars. -/
inductive EncTree where
  | scalar (v : Scalar)
  | encLeaf (ct iv tag : Nat) (ty : String)
  | obj (fs : EncFields)
  | arr (xs : EncItems)
deriving DecidableEq, Repr

/-- Ordered key/value pairs of an encrypted mapping. -/
inductive EncFields where
  | nil
  | cons (key : String) (v : EncTree) (rest : EncFields)
deriving DecidableEq, Repr

/-- Ordered elements of an encrypted sequence. -/
inductive EncItems where
  | nil
  | cons (v : EncTree) (rest : EncItems)
deriving DecidableEq, Repr
end

/-- EncryptOpts from `encrypt.go`: at most one scope field should be
non-empty; PrettyJSON is only respected by EncryptToJSON. -/
structure EncryptOpts where
  UnencryptedSuffix : String
  EncryptedSuffix : String
  UnencryptedRegex : String
  EncryptedRegex : String
  PrettyJSON : Bool
deriving DecidableEq, Repr

/-- Modelled from the spec: ScopeMatcher.shouldEncrypt (§4.2).  Rule
evaluation on the leaf's rendered key name: all fields empty → always
encrypt; `UnencryptedSuffix s` → encrypt unless the name ends with `s`;
`EncryptedSuffix s` → encrypt only if the name ends with `s`;
`UnencryptedRegex` / `EncryptedRegex` → same polarity using a regex match
on the name.  The regex engine is external, abstracted as `m`
(pattern → name → match). -/
def shouldEncrypt (m : String → String → Bool) (o : EncryptOpts) (name : String) : Bool :=
  if o.UnencryptedSuffix ≠ "" then !(name.endsWith o.UnencryptedSuffix)
  else if o.EncryptedSuffix ≠ "" then name.endsWith o.EncryptedSuffix
  else if o.UnencryptedRegex ≠ "" then !(m o.UnencryptedRegex name)
  else if o.EncryptedRegex ≠ "" then m o.EncryptedRegex name
  else true

mutual
/-- Number of leaves of a tree that the scope policy selects for
encryption; `name` is the nearest enclosing mapping key (sequence elements
inherit it). -/
def countEnc (m : String → String → Bool) (o : EncryptOpts) : PlainTree → String → Nat
  | .scalar _, name => if shouldEncrypt m o name then 1 else 0
  | .obj fs, _ => countEncFields m o fs
  | .arr xs, name => countEncItems m o xs name

/-- Selected-leaf count over mapping fields. -/
def countEncFields (m : String → String → Bool) (o : EncryptOpts) : PlainFields → Nat
  | .nil => 0
  | .cons key v rest => countEnc m o v key + countEncFields m o rest

/-- Selected-leaf count over sequence elements. -/
def countEncItems (m : String → String → Bool) (o : EncryptOpts) : PlainItems → String → Nat
  | .nil, _ => 0
  | .cons v rest, name => countEnc m o v name + countEncItems m o rest name
end

mutual
/-- Modelled from the spec: the depth-first tree walk of EnvelopeEncryptor
(§4.4, performed by the sops library inside `common.EncryptTree`): every
scalar leaf whose nearest enclosing mapping key is selected by
ScopeMatcher is replaced by an EncryptedLeaf carrying ciphertext, a fresh
nonce drawn from the random stream `s` (the `k`-th leaf uses `s k`), the
authentication tag, and the scalar's type tag; unselected scalars are left
untouched.  `aead dk iv v` abstracts AES-256-GCM, returning (ciphertext,
tag). -/
def encryptTree (m : String → String → Bool) (aead : Nat → Nat → Scalar → Nat × Nat)
    (o : EncryptOpts) (dk : Nat) (s : Nat → Nat) :
    PlainTree → String → Nat → EncTree
  | .scalar v, name, k =>
      if shouldEncrypt m o name then
        .encLeaf (aead dk (s k) v).1 (s k) (aead dk (s k) v).2 v.typeTag
      else .scalar v
  | .obj fs, _, k => .obj (encryptFields m aead o dk s fs k)
  | .arr xs, name, k => .arr (encryptItems m aead o dk s xs name k)

/-- Tree walk over mapping fields: each value is walked under its own key
name; nonce indices are consumed left to right. -/
def encryptFields (m : String → String → Bool) (aead : Nat → Nat → Scalar → Nat × Nat)
    (o : EncryptOpts) (dk : Nat) (s : Nat → Nat) :
    PlainFields → Nat → EncFields
  | .nil, _ => .nil
  | .cons key v rest, k =>
      .cons key (encryptTree m aead o dk s v key k)
        (encryptFields m aead o dk s rest (k + countEnc m o v key))

/-- Tree walk over sequence elements: elements inherit the enclosing
mapping key name. -/
def encryptItems (m : String → String → Bool) (aead : Nat → Nat → Scalar → Nat × Nat)
    (o : EncryptOpts) (dk : Nat) (s : Nat → Nat) :
    PlainItems → String → Nat → EncItems
  | .nil, _, _ => .nil
  | .cons v rest, name, k =>
      .cons (encryptTree m aead o dk s v name k)
        (encryptItems m aead o dk s rest name (k + countEnc m o v name))
end

mutual
/-- Leaves of a plain tree in depth-first order, each paired with its
effective key name (the nearest enclosing mapping key; `name` at the
root). -/
def plainLeaves : PlainTree → String → List (String × Scalar)
  | .scalar v, name => [(name, v)]
  | .obj fs, _ => plainLeavesFields fs
  | .arr xs, name => plainLeavesItems xs name

/-- Leaves of mapping fields in order. -/
def plainLeavesFields : PlainFields → List (String × Scalar)
  | .nil => []
  | .cons key v rest => plainLeaves v key ++ plainLeavesFields rest

/-- Leaves of sequence elements in order. -/
def plainLeavesItems : PlainItems → String → List (String × Scalar)
  | .nil, _ => []
  | .cons v rest, name => plainLeaves v name ++ plainLeavesItems rest name
end

mutual
/-- Leaves of an encrypted tree in depth-first order, each paired with its
effective key name and its state: `none` for an EncryptedLeaf, `some v`
for a plaintext scalar left untouched. -/
def encLeaves : EncTree → String → List (String × Option Scalar)
  | .scalar v, name => [(name, some v)]
  | .encLeaf _ _ _ _, name => [(name, none)]
  | .obj fs, _ => encLeavesFields fs
  | .arr xs, name => encLeavesItems xs name

/-- Leaf states of encrypted mapping fields. -/
def encLeavesFields : EncFields → List (String × Option Scalar)
  | .nil => []
  | .cons key v rest => encLeaves v key ++ encLeavesFields rest

/-- Leaf states of encrypted sequence elements. -/
def encLeavesItems : EncItems → String → List (String × Option Scalar)
  | .nil, _ => []
  | .cons v rest, name => encLeaves v name ++ encLeavesItems rest name
end

mutual
/-- Nonces (ivs) of the EncryptedLeaf nodes of an encrypted tree, in
depth-first order. -/
def encIvs : EncTree → List Nat
  | .scalar _ => []
  | .encLeaf _ iv _ _ => [iv]
  | .obj fs => encIvsFields fs
  | .arr xs => encIvsItems xs

/-- Nonces of encrypted mapping fields. -/
def encIvsFields : EncFields → List Nat
  | .nil => []
  | .cons _ v rest => encIvs v ++ encIvsFields rest

/-- Nonces of encrypted sequence elements. -/
def encIvsItems : EncItems → List Nat
  | .nil => []
  | .cons v rest => encIvs v ++ encIvsItems rest
end

end SopsProvider

namespace SopsProvider

/-- Classification a leaf should get after encryption: `none` (encrypted)
when the scope policy selects its key name, otherwise its original scalar. -/
def leafClass (m : String → String → Bool) (o : EncryptOpts) (p : String × Scalar) :
    String × Option Scalar :=
  (p.1, if shouldEncrypt m o p.1 then none else some p.2)

mutual
theorem encLeaves_encryptTree (m : String → String → Bool)
    (aead : Nat → Nat → Scalar → Nat × Nat) (o : EncryptOpts) (dk : Nat) (s : Nat → Nat)
    (t : PlainTree) (name : String) (k : Nat) :
    encLeaves (encryptTree m aead o dk s t name k) name =
      (plainLeaves t name).map (leafClass m o) := by
  cases t with
  | scalar v =>
      cases h : shouldEncrypt m o name <;>
        simp [encryptTree, encLeaves, plainLeaves, leafClass, h]
  | obj fs =>
      simpa [encryptTree, encLeaves, plainLeaves] using
        encLeaves_encryptFields m aead o dk s fs k
  | arr xs =>
      simpa [encryptTree, encLeaves, plainLeaves] using
        encLeaves_encryptItems m aead o dk s xs name k

theorem encLeaves_encryptFields (m : String → String → Bool)
    (aead : Nat → Nat → Scalar → Nat × Nat) (o : EncryptOpts) (dk : Nat) (s : Nat → Nat)
    (fs : PlainFields) (k : Nat) :
    encLeavesFields (encryptFields m aead o dk s fs k) =
      (plainLeavesFields fs).map (leafClass m o) := by
  cases fs with
  | nil => simp [encryptFields, encLeavesFields, plainLeavesFields]
  | cons key v rest =>
      simp [encryptFields, encLeavesFields, plainLeavesFields,
        encLeaves_encryptTree m aead o dk s v key k,
        encLeaves_encryptFields m aead o dk s rest (k + countEnc m o v key)]

theorem encLeaves_encryptItems (m : String → String → Bool)
    (aead : Nat → Nat → Scalar → Nat × Nat) (o : EncryptOpts) (dk : Nat) (s : Nat → Nat)
    (xs : PlainItems) (name : String) (k : Nat) :
    encLeavesItems (encryptItems m aead o dk s xs name k) name =
      (plainLeavesItems xs name).map (leafClass m o) := by
  cases xs with
  | nil => simp [encryptItems, encLeavesItems, plainLeavesItems]
  | cons v rest =>
      simp [encryptItems, encLeavesItems, plainLeavesItems,
        encLeaves_encryptTree m aead o dk s v name k,
        encLeaves_encryptItems m aead o dk s rest name (k + countEnc m o v name)]
end

end SopsProvider

namespace SopsProvider

mutual
theorem encIvs_encryptTree (m : String → String → Bool)
    (aead : Nat → Nat → Scalar → Nat × Nat) (o : EncryptOpts) (dk : Nat) (s : Nat → Nat)
    (t : PlainTree) (name : String) (k : Nat) :
    encIvs (encryptTree m aead o dk s t name k) =
      (List.range' k (countEnc m o t name)).map s := by
  cases t with
  | scalar v =>
      cases h : shouldEncrypt m o name <;>
        simp [encryptTree, encIvs, countEnc, h, List.range'_succ]
  | obj fs =>
      simpa [encryptTree, encIvs, countEnc] using
        encIvs_encryptFields m aead o dk s fs k
  | arr xs =>
      simpa [encryptTree, encIvs, countEnc] using
        encIvs_encryptItems m aead o dk s xs name k

theorem encIvs_encryptFields (m : String → String → Bool)
    (aead : Nat → Nat → Scalar → Nat × Nat) (o : EncryptOpts) (dk : Nat) (s : Nat → Nat)
    (fs : PlainFields) (k : Nat) :
    encIvsFields (encryptFields m aead o dk s fs k) =
      (List.range' k (countEncFields m o fs)).map s := by
  cases fs with
  | nil => simp [encryptFields, encIvsFields, countEncFields]
  | cons key v rest =>
      have hsplit := List.range'_append k (countEnc m o v key) (countEncFields m o rest) 1
      simp only [one_mul] at hsplit
      simp [encryptFields, encIvsFields, countEncFields,
        encIvs_encryptTree m aead o dk s v key k,
        encIvs_encryptFields m aead o dk s rest (k + countEnc m o v key),
        ← List.map_append, hsplit, Nat.add_comm]

theorem encIvs_encryptItems (m : String → String → Bool)
    (aead : Nat → Nat → Scalar → Nat × Nat) (o : EncryptOpts) (dk : Nat) (s : Nat → Nat)
    (xs : PlainItems) (name : String) (k : Nat) :
    encIvsItems (encryptItems m aead o dk s xs name k) =
      (List.range' k (countEncItems m o xs name)).map s := by
  cases xs with
  | nil => simp [encryptItems, encIvsItems, countEncItems]
  | cons v rest =>
      have hsplit := List.range'_append k (countEnc m o v name) (countEncItems m o rest name) 1
      simp only [one_mul] at hsplit
      simp [encryptItems, encIvsItems, countEncItems,
        encIvs_encryptTree m aead o dk s v name k,
        encIvs_encryptItems m aead o dk s rest name (k + countEnc m o v name),
        ← List.map_append, hsplit, Nat.add_comm]
end

end SopsProvider

namespace SopsProvider

/-- Count of non-empty scope fields of an EncryptOpts (mirrors the loop in
`validateScope` over the four option strings). -/
def scopeFieldsSet (o : EncryptOpts) : Nat :=
  List.countP (fun f => f != "")
    [o.UnencryptedSuffix, o.EncryptedSuffix, o.UnencryptedRegex, o.EncryptedRegex]

/-- C1: for every input document and every EncryptOpts with at most one
non-empty scope field, the encrypted tree replaces a scalar leaf by an
EncryptedLeaf exactly when the scope rule selects its key name (otherwise
the scalar is kept untouched), and the rule has the specified polarity:
all fields empty → every leaf encrypted; UnencryptedSuffix → encrypted
unless the name ends with it; EncryptedSuffix → encrypted only if the name
ends with it; UnencryptedRegex / EncryptedRegex → same polarity with a
regex match on the name. -/
theorem C1_leaf_encrypted_iff_scope_selects
    (m : String → String → Bool) (aead : Nat → Nat → Scalar → Nat × Nat)
    (o : EncryptOpts) (dk : Nat) (s : Nat → Nat) (fs : PlainFields)
    (hscope : scopeFieldsSet o ≤ 1) :
    (encLeavesFields (encryptFields m aead o dk s fs 0) =
      (plainLeavesFields fs).map (leafClass m o)) ∧
    (∀ name, o.UnencryptedSuffix = "" → o.EncryptedSuffix = "" →
      o.UnencryptedRegex = "" → o.EncryptedRegex = "" →
      shouldEncrypt m o name = true) ∧
    (∀ name, o.UnencryptedSuffix ≠ "" →
      shouldEncrypt m o name = !(name.endsWith o.UnencryptedSuffix)) ∧
    (∀ name, o.UnencryptedSuffix = "" → o.EncryptedSuffix ≠ "" →
      shouldEncrypt m o name = name.endsWith o.EncryptedSuffix) ∧
    (∀ name, o.UnencryptedSuffix = "" → o.EncryptedSuffix = "" →
      o.UnencryptedRegex ≠ "" →
      shouldEncrypt m o name = !(m o.UnencryptedRegex name)) ∧
    (∀ name, o.UnencryptedSuffix = "" → o.EncryptedSuffix = "" →
      o.UnencryptedRegex = "" → o.EncryptedRegex ≠ "" →
      shouldEncrypt m o name = m o.EncryptedRegex name) := by
  refine ⟨encLeaves_encryptFields m aead o dk s fs 0, ?_, ?_, ?_, ?_, ?_⟩ <;>
    intro name <;> intros <;> simp_all [shouldEncrypt]

/-- Witness for C1 at a concrete document and policy (EncryptedSuffix
scope, one matching and one non-matching key). -/
theorem C1_leaf_encrypted_iff_scope_selects_witness :
    scopeFieldsSet ⟨"", "_enc", "", "", false⟩ ≤ 1 ∧
    (encLeavesFields
      (encryptFields (fun _ _ => true) (fun _ _ _ => (7, 8)) ⟨"", "_enc", "", "", false⟩ 0
        (fun i => i + 40)
        (.cons "pw_enc" (.scalar (.str "s"))
          (.cons "host" (.scalar (.str "h")) .nil)) 0) =
      (plainLeavesFields
        (.cons "pw_enc" (.scalar (.str "s"))
          (.cons "host" (.scalar (.str "h")) .nil))).map
        (leafClass (fun _ _ => true) ⟨"", "_enc", "", "", false⟩)) :=
  ⟨by decide,
    (C1_leaf_encrypted_iff_scope_selects (fun _ _ => true) (fun _ _ _ => (7, 8))
      ⟨"", "_enc", "", "", false⟩ 0 (fun i => i + 40)
      (.cons "pw_enc" (.scalar (.str "s"))
        (.cons "host" (.scalar (.str "h")) .nil)) (by decide)).1⟩

/-- C5: two-run freshness property, randomness made explicit.  Each run
draws its per-leaf nonces from its own random stream; if the streams give
different first nonces (which is what a cryptographically secure random
source yields on two runs, except with negligible probability) and the
policy selects at least one leaf, the two encrypted artifacts differ —
even with the same document, policy, key and data keys, and even though
the structure and the set of encrypted fields are identical. -/
theorem C5_two_runs_differ
    (m : String → String → Bool) (aead : Nat → Nat → Scalar → Nat × Nat)
    (o : EncryptOpts) (dk1 dk2 : Nat) (s1 s2 : Nat → Nat) (fs : PlainFields)
    (hone : 1 ≤ countEncFields m o fs) (hne : s1 0 ≠ s2 0) :
    encryptFields m aead o dk1 s1 fs 0 ≠ encryptFields m aead o dk2 s2 fs 0 := by
  intro heq
  have h1 := encIvs_encryptFields m aead o dk1 s1 fs 0
  have h2 := encIvs_encryptFields m aead o dk2 s2 fs 0
  rw [heq, h2] at h1
  obtain ⟨n, hn⟩ : ∃ n, countEncFields m o fs = n + 1 :=
    ⟨countEncFields m o fs - 1, by omega⟩
  rw [hn] at h1
  simp [List.range'_succ] at h1
  exact hne h1.1.symm

/-- Witness for C5: a one-leaf document encrypted under the default policy
with two streams differing at the first nonce. -/
theorem C5_two_runs_differ_witness :
    1 ≤ countEncFields (fun _ _ => false) ⟨"", "", "", "", false⟩
      (.cons "k" (.scalar (.str "v")) .nil) ∧
    encryptFields (fun _ _ => false) (fun _ _ _ => (0, 0)) ⟨"", "", "", "", false⟩ 0
        (fun _ => 0) (.cons "k" (.scalar (.str "v")) .nil) 0 ≠
      encryptFields (fun _ _ => false) (fun _ _ _ => (0, 0)) ⟨"", "", "", "", false⟩ 0
        (fun _ => 1) (.cons "k" (.scalar (.str "v")) .nil) 0 :=
  ⟨by decide,
    C5_two_runs_differ (fun _ _ => false) (fun _ _ _ => (0, 0)) ⟨"", "", "", "", false⟩ 0 0
      (fun _ => 0) (fun _ => 1) (.cons "k" (.scalar (.str "v")) .nil)
      (by decide) (by decide)⟩

end SopsProvider

namespace SopsProvider

/-- Modelled from the spec: the sops library format version constant
(`sopsversion.Version`) recorded in the metadata. -/
def sopsVersion : String := "3.9.0"

/-- Metadata attached once per document: the fields `encryptDocument` sets
on `sops.Metadata` and the single `hcvault.MasterKey` key group (vault
address, engine path, key name, wrapped data key, version, and the four
scope-policy fields copied from the options). -/
structure Metadata where
  VaultAddress : String
  EnginePath : String
  KeyName : String
  EncryptedKey : String
  Version : String
  UnencryptedSuffix : String
  EncryptedSuffix : String
  UnencryptedRegex : String
  EncryptedRegex : String
deriving DecidableEq, Repr

/-- Metadata construction in `encryptDocument` (the `hcvault.MasterKey` and
`sops.Metadata` literals). -/
def mkMetadata (vaultAddress transitPath keyName encryptedKey : String)
    (o : EncryptOpts) : Metadata :=
  ⟨vaultAddress, transitPath, keyName, encryptedKey, sopsVersion,
    o.UnencryptedSuffix, o.EncryptedSuffix, o.UnencryptedRegex, o.EncryptedRegex⟩

/-- Observable steps of one encryption call, in execution order.  The wrap
step carries the external request sent to the Vault Transit encrypt
endpoint: engine path, key name and the data key being wrapped. -/
inductive Ev where
  | parseStep
  | keygenStep
  | wrapStep (enginePath keyName : String) (dk : Nat)
  | encryptStep
  | emitStep
deriving DecidableEq, Repr

/-- Predicate picking out key-wrap calls in a trace. -/
def Ev.isWrap : Ev → Bool
  | .wrapStep _ _ _ => true
  | _ => false

/-- The encryptDocument pipeline from `encrypt.go`: parse the JSON content,
generate a random data key, wrap it via Vault Transit, build the tree with
metadata, encrypt the tree, then emit into the target format.  Outcomes of
the external steps are parameters: `parseRes` (JSON store LoadPlainFile),
`keygenRes` (generateDataKey / crypto-rand), `wrapRes dk` (wrapDataKey,
the single Vault call), `encRes branches dk` (common.EncryptTree),
`emit` (the store serializer).  Returns the Go (bytes, error) result as an
Except, paired with the ordered trace of steps that executed. -/
def encryptDocument (vaultAddress transitPath keyName : String) (o : EncryptOpts)
    (parseRes : Except String PlainFields)
    (keygenRes : Except String Nat)
    (wrapRes : Nat → Except String String)
    (encRes : PlainFields → Nat → Except String EncFields)
    (emit : EncFields → Metadata → Except String (List Char)) :
    Except String (List Char) × List Ev :=
  match parseRes with
  | .error e => (.error ("parsing content as JSON: " ++ e), [.parseStep])
  | .ok branches =>
    match keygenRes with
    | .error e => (.error e, [.parseStep, .keygenStep])
    | .ok dataKey =>
      match wrapRes dataKey with
      | .error e =>
          (.error e,
            [.parseStep, .keygenStep, .wrapStep transitPath keyName dataKey])
      | .ok encryptedKey =>
        match encRes branches dataKey with
        | .error e =>
            (.error ("encrypting tree: " ++ e),
              [.parseStep, .keygenStep, .wrapStep transitPath keyName dataKey,
                .encryptStep])
        | .ok encBranches =>
          match emit encBranches
              (mkMetadata vaultAddress transitPath keyName encryptedKey o) with
          | .error e =>
              (.error ("emitting encrypted document: " ++ e),
                [.parseStep, .keygenStep, .wrapStep transitPath keyName dataKey,
                  .encryptStep, .emitStep])
          | .ok out =>
              (.ok out,
                [.parseStep, .keygenStep, .wrapStep transitPath keyName dataKey,
                  .encryptStep, .emitStep])

/-- EncryptToJSON from `encrypt.go`: run encryptDocument with the JSON
store serializer, then — only when `o.PrettyJSON` — re-indent the output
with two spaces via `json.Indent` (outcome parameter `indentRes`).  The Go
(string, error) return is modelled as (bytes, optional error); every error
branch returns empty bytes. -/
def EncryptToJSON (vaultAddress transitPath keyName : String) (o : EncryptOpts)
    (parseRes : Except String PlainFields)
    (keygenRes : Except String Nat)
    (wrapRes : Nat → Except String String)
    (encRes : PlainFields → Nat → Except String EncFields)
    (emitJSON : EncFields → Metadata → Except String (List Char))
    (indentRes : List Char → Except String (List Char)) :
    (List Char × Option String) × List Ev :=
  let p := encryptDocument vaultAddress transitPath keyName o
    parseRes keygenRes wrapRes encRes emitJSON
  (match p.1 with
    | .error e => ([], some e)
    | .ok out =>
      if o.PrettyJSON then
        match indentRes out with
        | .error e => ([], some ("pretty-printing JSON: " ++ e))
        | .ok buf => (buf, none)
      else (out, none),
    p.2)

/-- EncryptToYAML from `encrypt.go`: run encryptDocument with the YAML
store serializer and return its output unchanged (no pretty branch; the
PrettyJSON flag is never consulted). -/
def EncryptToYAML (vaultAddress transitPath keyName : String) (o : EncryptOpts)
    (parseRes : Except String PlainFields)
    (keygenRes : Except String Nat)
    (wrapRes : Nat → Except String String)
    (encRes : PlainFields → Nat → Except String EncFields)
    (emitYAML : EncFields → Metadata → Except String (List Char)) :
    (List Char × Option String) × List Ev :=
  let p := encryptDocument vaultAddress transitPath keyName o
    parseRes keygenRes wrapRes encRes emitYAML
  (match p.1 with
    | .error e => ([], some e)
    | .ok out => (out, none),
    p.2)

end SopsProvider

namespace SopsProvider

/-- Terraform framework string attribute: `none` models a null or unknown
value, `some s` a known value (`ValueString` of null/unknown is ""). -/
def TFString := Option String

/-- ValueString of a framework string attribute. -/
def tfValueString (v : Option String) : String := v.getD ""

/-- Plan data of the sops_encrypted_json resource
(`encryptedJSONModel` in `resource_encrypted_json.go`). -/
structure encryptedJSONModel where
  Content : String
  VaultKeyName : String
  UnencryptedSuffix : Option String
  EncryptedSuffix : Option String
  UnencryptedRegex : Option String
  EncryptedRegex : Option String
  Pretty : Bool
deriving DecidableEq, Repr

/-- Number of scope attributes that are set: non-null, non-unknown and not
the empty string (the counting loop in `validateScope`). -/
def scopeAttrsSet (d : encryptedJSONModel) : Nat :=
  List.countP (fun v => match v with | some s => s != "" | none => false)
    [d.UnencryptedSuffix, d.EncryptedSuffix, d.UnencryptedRegex, d.EncryptedRegex]

/-- validateScope from `resource_encrypted_json.go`: fails when more than
one of the four scope attributes is set. -/
def validateScope (d : encryptedJSONModel) : Except String Unit :=
  if scopeAttrsSet d > 1 then
    .error "at most one of unencrypted_suffix, encrypted_suffix, unencrypted_regex, encrypted_regex may be set"
  else .ok ()

/-- Create of sops_encrypted_json (`resource_encrypted_json.go`): after
binding the plan, `validateScope` runs first; only if it passes does
`encrypt` run, which builds EncryptOpts from the attribute values and
calls EncryptToJSON.  A validation failure produces an "Invalid scope
configuration" diagnostic and returns before any encryption work, so the
step trace is empty. -/
def createEncryptedJSON (d : encryptedJSONModel) (vaultAddress transitPath : String)
    (parseRes : Except String PlainFields)
    (keygenRes : Except String Nat)
    (wrapRes : Nat → Except String String)
    (encRes : PlainFields → Nat → Except String EncFields)
    (emitJSON : EncFields → Metadata → Except String (List Char))
    (indentRes : List Char → Except String (List Char)) :
    (List Char × Option String) × List Ev :=
  match validateScope d with
  | .error e => (([], some ("Invalid scope configuration: " ++ e)), [])
  | .ok _ =>
      EncryptToJSON vaultAddress transitPath d.VaultKeyName
        ⟨tfValueString d.UnencryptedSuffix, tfValueString d.EncryptedSuffix,
          tfValueString d.UnencryptedRegex, tfValueString d.EncryptedRegex, d.Pretty⟩
        parseRes keygenRes wrapRes encRes emitJSON indentRes

/-- C2: when the caller supplies more than one non-empty scope field, the
create operation fails with a configuration error before any cryptography
or external call: the result is an error with no ciphertext, the step
trace is empty, and in particular the key-wrap endpoint receives zero
requests. -/
theorem C2_scope_conflict_fails_before_any_call
    (d : encryptedJSONModel) (vaultAddress transitPath : String)
    (parseRes : Except String PlainFields)
    (keygenRes : Except String Nat)
    (wrapRes : Nat → Except String String)
    (encRes : PlainFields → Nat → Except String EncFields)
    (emitJSON : EncFields → Metadata → Except String (List Char))
    (indentRes : List Char → Except String (List Char))
    (hconflict : scopeAttrsSet d > 1) :
    (createEncryptedJSON d vaultAddress transitPath parseRes keygenRes wrapRes
        encRes emitJSON indentRes).1.1 = [] ∧
    (createEncryptedJSON d vaultAddress transitPath parseRes keygenRes wrapRes
        encRes emitJSON indentRes).1.2 =
      some ("Invalid scope configuration: at most one of unencrypted_suffix, encrypted_suffix, unencrypted_regex, encrypted_regex may be set") ∧
    (createEncryptedJSON d vaultAddress transitPath parseRes keygenRes wrapRes
        encRes emitJSON indentRes).2 = [] := by
  simp [createEncryptedJSON, validateScope, hconflict]

/-- Witness for C2: both unencrypted_suffix and encrypted_regex set. -/
theorem C2_scope_conflict_fails_before_any_call_witness :
    scopeAttrsSet ⟨"{}", "k", some "_u", none, none, some ".*", false⟩ > 1 ∧
    (createEncryptedJSON ⟨"{}", "k", some "_u", none, none, some ".*", false⟩
        "http://v" "transit" (.ok .nil) (.ok 0) (fun _ => .ok "t")
        (fun _ _ => .ok .nil) (fun _ _ => .ok []) (fun c => .ok c)).2 = [] :=
  ⟨by decide,
    (C2_scope_conflict_fails_before_any_call
      ⟨"{}", "k", some "_u", none, none, some ".*", false⟩ "http://v" "transit"
      (.ok .nil) (.ok 0) (fun _ => .ok "t") (fun _ _ => .ok .nil)
      (fun _ _ => .ok []) (fun c => .ok c) (by decide)).2.2⟩

end SopsProvider

namespace SopsProvider

/-- C4: every encryption call performs at most one key-wrap call — exactly
one as soon as the wrap step is reached — with no retries; the step trace
is always a prefix of parse → keygen → wrap → encrypt-tree → emit, so the
wrap call is sequenced after input parsing and data-key generation and
before any leaf is encrypted; if the wrap call fails the operation aborts
with that error, the tree-encryption step never runs (no leaves are
touched) and nothing is emitted. -/
theorem C4_single_wrap_call_sequenced
    (vaultAddress transitPath keyName : String) (o : EncryptOpts)
    (parseRes : Except String PlainFields)
    (keygenRes : Except String Nat)
    (wrapRes : Nat → Except String String)
    (encRes : PlainFields → Nat → Except String EncFields)
    (emit : EncFields → Metadata → Except String (List Char)) :
    (∃ dk n, (encryptDocument vaultAddress transitPath keyName o parseRes keygenRes
        wrapRes encRes emit).2 =
      ([Ev.parseStep, Ev.keygenStep, Ev.wrapStep transitPath keyName dk,
        Ev.encryptStep, Ev.emitStep]).take n) ∧
    List.countP Ev.isWrap (encryptDocument vaultAddress transitPath keyName o parseRes
      keygenRes wrapRes encRes emit).2 ≤ 1 ∧
    ((∃ p k dk, Ev.wrapStep p k dk ∈ (encryptDocument vaultAddress transitPath keyName o
        parseRes keygenRes wrapRes encRes emit).2) →
      List.countP Ev.isWrap (encryptDocument vaultAddress transitPath keyName o parseRes
        keygenRes wrapRes encRes emit).2 = 1 ∧
      (∃ b, parseRes = .ok b) ∧ (∃ dk, keygenRes = .ok dk)) ∧
    (∀ b dk e, parseRes = .ok b → keygenRes = .ok dk → wrapRes dk = .error e →
      (encryptDocument vaultAddress transitPath keyName o parseRes keygenRes
        wrapRes encRes emit).1 = .error e ∧
      Ev.encryptStep ∉ (encryptDocument vaultAddress transitPath keyName o parseRes
        keygenRes wrapRes encRes emit).2 ∧
      Ev.emitStep ∉ (encryptDocument vaultAddress transitPath keyName o parseRes
        keygenRes wrapRes encRes emit).2) ∧
    (Ev.encryptStep ∈ (encryptDocument vaultAddress transitPath keyName o parseRes
        keygenRes wrapRes encRes emit).2 →
      ∃ dk w, keygenRes = .ok dk ∧ wrapRes dk = .ok w) := by
  rcases parseRes with e | b
  · exact ⟨⟨0, 1, by simp [encryptDocument]⟩, by simp [encryptDocument, Ev.isWrap],
      by simp [encryptDocument], by simp [encryptDocument], by simp [encryptDocument]⟩
  rcases keygenRes with e | dk
  · exact ⟨⟨0, 2, by simp [encryptDocument]⟩, by simp [encryptDocument, Ev.isWrap],
      by simp [encryptDocument], by simp [encryptDocument], by simp [encryptDocument]⟩
  rcases hw : wrapRes dk with e | w
  · refine ⟨⟨dk, 3, by simp [encryptDocument, hw]⟩,
      by simp [encryptDocument, hw, Ev.isWrap],
      by simp [encryptDocument, hw, Ev.isWrap],
      ?_, by simp [encryptDocument, hw]⟩
    rintro b' dk' e' hb hk hw'
    obtain rfl : dk' = dk := by injection hk; omega
    rw [hw] at hw'
    obtain rfl : e' = e := by injection hw' with h; exact h.symm
    simp [encryptDocument, hw]
  rcases he : encRes b dk with e | eb
  · refine ⟨⟨dk, 4, by simp [encryptDocument, hw, he]⟩,
      by simp [encryptDocument, hw, he, Ev.isWrap],
      by simp [encryptDocument, hw, he, Ev.isWrap],
      ?_, fun _ => ⟨dk, w, rfl, hw⟩⟩
    rintro b' dk' e' hb hk hw'
    obtain rfl : dk' = dk := by injection hk; omega
    rw [hw] at hw'
    exact nomatch hw'
  rcases hm : emit eb (mkMetadata vaultAddress transitPath keyName w o) with e | out
  all_goals
    refine ⟨⟨dk, 5, by simp [encryptDocument, hw, he, hm]⟩,
      by simp [encryptDocument, hw, he, hm, Ev.isWrap],
      by simp [encryptDocument, hw, he, hm, Ev.isWrap],
      ?_, fun _ => ⟨dk, w, rfl, hw⟩⟩
  all_goals
    rintro b' dk' e' hb hk hw'
    obtain rfl : dk' = dk := by injection hk; omega
    rw [hw] at hw'
    exact nomatch hw'

end SopsProvider

namespace SopsProvider

/-- Witness for C4 at a concrete run whose wrap call fails: the operation
aborts with the wrap error and neither tree encryption nor emission runs. -/
theorem C4_single_wrap_call_sequenced_witness :
    (encryptDocument "http://v" "transit" "k" ⟨"", "", "", "", false⟩ (.ok .nil) (.ok 5)
        (fun _ => .error "boom") (fun _ _ => .ok .nil) (fun _ _ => .ok [])).1 =
      .error "boom" ∧
    Ev.encryptStep ∉ (encryptDocument "http://v" "transit" "k" ⟨"", "", "", "", false⟩
      (.ok .nil) (.ok 5) (fun _ => .error "boom") (fun _ _ => .ok .nil)
      (fun _ _ => .ok [])).2 ∧
    Ev.emitStep ∉ (encryptDocument "http://v" "transit" "k" ⟨"", "", "", "", false⟩
      (.ok .nil) (.ok 5) (fun _ => .error "boom") (fun _ _ => .ok .nil)
      (fun _ _ => .ok [])).2 :=
  (C4_single_wrap_call_sequenced "http://v" "transit" "k" ⟨"", "", "", "", false⟩ (.ok .nil)
    (.ok 5) (fun _ => .error "boom") (fun _ _ => .ok .nil)
    (fun _ _ => .ok [])).2.2.2.1 .nil 5 "boom" rfl rfl rfl

/-- C3: EncryptToJSON and EncryptToYAML propagate every failure (parse,
data-key generation, key wrap, tree encryption, serialization, pretty
printing) as a non-nil error with empty output bytes, and on success
return the complete artifact with no error — never partial output. -/
theorem C3_error_or_complete_artifact
    (vaultAddress transitPath keyName : String) (o : EncryptOpts)
    (parseRes : Except String PlainFields)
    (keygenRes : Except String Nat)
    (wrapRes : Nat → Except String String)
    (encRes : PlainFields → Nat → Except String EncFields)
    (emitJSON emitYAML : EncFields → Metadata → Except String (List Char))
    (indentRes : List Char → Except String (List Char)) :
    (∀ e, parseRes = .error e →
      (EncryptToJSON vaultAddress transitPath keyName o parseRes keygenRes wrapRes encRes
        emitJSON indentRes).1 = ([], some ("parsing content as JSON: " ++ e)) ∧
      (EncryptToYAML vaultAddress transitPath keyName o parseRes keygenRes wrapRes encRes
        emitYAML).1 = ([], some ("parsing content as JSON: " ++ e))) ∧
    (∀ b e, parseRes = .ok b → keygenRes = .error e →
      (EncryptToJSON vaultAddress transitPath keyName o parseRes keygenRes wrapRes encRes
        emitJSON indentRes).1 = ([], some e) ∧
      (EncryptToYAML vaultAddress transitPath keyName o parseRes keygenRes wrapRes encRes
        emitYAML).1 = ([], some e)) ∧
    (∀ b dk e, parseRes = .ok b → keygenRes = .ok dk → wrapRes dk = .error e →
      (EncryptToJSON vaultAddress transitPath keyName o parseRes keygenRes wrapRes encRes
        emitJSON indentRes).1 = ([], some e) ∧
      (EncryptToYAML vaultAddress transitPath keyName o parseRes keygenRes wrapRes encRes
        emitYAML).1 = ([], some e)) ∧
    (∀ b dk w e, parseRes = .ok b → keygenRes = .ok dk → wrapRes dk = .ok w →
      encRes b dk = .error e →
      (EncryptToJSON vaultAddress transitPath keyName o parseRes keygenRes wrapRes encRes
        emitJSON indentRes).1 = ([], some ("encrypting tree: " ++ e)) ∧
      (EncryptToYAML vaultAddress transitPath keyName o parseRes keygenRes wrapRes encRes
        emitYAML).1 = ([], some ("encrypting tree: " ++ e))) ∧
    (∀ b dk w eb e, parseRes = .ok b → keygenRes = .ok dk → wrapRes dk = .ok w →
      encRes b dk = .ok eb →
      emitJSON eb (mkMetadata vaultAddress transitPath keyName w o) = .error e →
      (EncryptToJSON vaultAddress transitPath keyName o parseRes keygenRes wrapRes encRes
        emitJSON indentRes).1 = ([], some ("emitting encrypted document: " ++ e))) ∧
    (∀ b dk w eb e, parseRes = .ok b → keygenRes = .ok dk → wrapRes dk = .ok w →
      encRes b dk = .ok eb →
      emitYAML eb (mkMetadata vaultAddress transitPath keyName w o) = .error e →
      (EncryptToYAML vaultAddress transitPath keyName o parseRes keygenRes wrapRes encRes
        emitYAML).1 = ([], some ("emitting encrypted document: " ++ e))) ∧
    (∀ b dk w eb out e, parseRes = .ok b → keygenRes = .ok dk → wrapRes dk = .ok w →
      encRes b dk = .ok eb →
      emitJSON eb (mkMetadata vaultAddress transitPath keyName w o) = .ok out →
      o.PrettyJSON = true → indentRes out = .error e →
      (EncryptToJSON vaultAddress transitPath keyName o parseRes keygenRes wrapRes encRes
        emitJSON indentRes).1 = ([], some ("pretty-printing JSON: " ++ e))) ∧
    (∀ b dk w eb out, parseRes = .ok b → keygenRes = .ok dk → wrapRes dk = .ok w →
      encRes b dk = .ok eb →
      emitJSON eb (mkMetadata vaultAddress transitPath keyName w o) = .ok out →
      o.PrettyJSON = false →
      (EncryptToJSON vaultAddress transitPath keyName o parseRes keygenRes wrapRes encRes
        emitJSON indentRes).1 = (out, none)) ∧
    (∀ b dk w eb out buf, parseRes = .ok b → keygenRes = .ok dk → wrapRes dk = .ok w →
      encRes b dk = .ok eb →
      emitJSON eb (mkMetadata vaultAddress transitPath keyName w o) = .ok out →
      o.PrettyJSON = true → indentRes out = .ok buf →
      (EncryptToJSON vaultAddress transitPath keyName o parseRes keygenRes wrapRes encRes
        emitJSON indentRes).1 = (buf, none)) ∧
    (∀ b dk w eb out, parseRes = .ok b → keygenRes = .ok dk → wrapRes dk = .ok w →
      encRes b dk = .ok eb →
      emitYAML eb (mkMetadata vaultAddress transitPath keyName w o) = .ok out →
      (EncryptToYAML vaultAddress transitPath keyName o parseRes keygenRes wrapRes encRes
        emitYAML).1 = (out, none)) := by
  refine ⟨?_, ?_, ?_, ?_, ?_, ?_, ?_, ?_, ?_, ?_⟩ <;>
    · intros
      simp_all [EncryptToJSON, EncryptToYAML, encryptDocument]

/-- Witness for C3 at a concrete failing parse: both entry points return
empty output and the parse error. -/
theorem C3_error_or_complete_artifact_witness :
    (EncryptToJSON "http://v" "transit" "k" ⟨"", "", "", "", false⟩ (.error "bad json")
        (.ok 0) (fun _ => .ok "t") (fun _ _ => .ok .nil) (fun _ _ => .ok [])
        (fun c => .ok c)).1 = ([], some ("parsing content as JSON: " ++ "bad json")) ∧
    (EncryptToYAML "http://v" "transit" "k" ⟨"", "", "", "", false⟩ (.error "bad json")
        (.ok 0) (fun _ => .ok "t") (fun _ _ => .ok .nil)
        (fun _ _ => .ok [])).1 = ([], some ("parsing content as JSON: " ++ "bad json")) :=
  (C3_error_or_complete_artifact "http://v" "transit" "k" ⟨"", "", "", "", false⟩
    (.error "bad json") (.ok 0) (fun _ => .ok "t") (fun _ _ => .ok .nil)
    (fun _ _ => .ok []) (fun _ _ => .ok []) (fun c => .ok c)).1 "bad json" rfl

/-- C10: EncryptToYAML never consults the PrettyJSON flag — for two option
records agreeing on the four scope fields (so differing at most in
PrettyJSON), the whole run is identical: same result bytes/error and the
same step trace, hence the same external key-wrap request. -/
theorem C10_yaml_path_ignores_pretty_flag
    (vaultAddress transitPath keyName : String) (o1 o2 : EncryptOpts)
    (parseRes : Except String PlainFields)
    (keygenRes : Except String Nat)
    (wrapRes : Nat → Except String String)
    (encRes : PlainFields → Nat → Except String EncFields)
    (emitYAML : EncFields → Metadata → Except String (List Char))
    (hu : o1.UnencryptedSuffix = o2.UnencryptedSuffix)
    (hs : o1.EncryptedSuffix = o2.EncryptedSuffix)
    (hur : o1.UnencryptedRegex = o2.UnencryptedRegex)
    (her : o1.EncryptedRegex = o2.EncryptedRegex) :
    EncryptToYAML vaultAddress transitPath keyName o1 parseRes keygenRes wrapRes encRes
        emitYAML =
      EncryptToYAML vaultAddress transitPath keyName o2 parseRes keygenRes wrapRes encRes
        emitYAML := by
  obtain ⟨u1, s1, ur1, er1, p1⟩ := o1
  obtain ⟨u2, s2, ur2, er2, p2⟩ := o2
  cases hu
  cases hs
  cases hur
  cases her
  rfl

/-- Witness for C10: options differing only in PrettyJSON give the same
YAML run. -/
theorem C10_yaml_path_ignores_pretty_flag_witness :
    EncryptToYAML "http://v" "transit" "k" ⟨"_u", "", "", "", false⟩ (.ok .nil) (.ok 3)
        (fun _ => .ok "t") (fun _ _ => .ok .nil) (fun _ _ => .ok ['y']) =
      EncryptToYAML "http://v" "transit" "k" ⟨"_u", "", "", "", true⟩ (.ok .nil) (.ok 3)
        (fun _ => .ok "t") (fun _ _ => .ok .nil) (fun _ _ => .ok ['y']) :=
  C10_yaml_path_ignores_pretty_flag "http://v" "transit" "k"
    ⟨"_u", "", "", "", false⟩ ⟨"_u", "", "", "", true⟩ (.ok .nil) (.ok 3)
    (fun _ => .ok "t") (fun _ _ => .ok .nil) (fun _ _ => .ok ['y']) rfl rfl rfl rfl

end SopsProvider

namespace SopsProvider

/-- sopsCreationRule from `config.go`; yaml tags `path_regex,omitempty`
and `hc_vault_transit_uri`. -/
structure sopsCreationRule where
  PathRegex : String
  HCVaultTransitURI : String
deriving DecidableEq, Repr

/-- Go `strings.TrimRight(s, "/")`: drop every trailing '/' character. -/
def trimRightSlashes (s : String) : String :=
  ⟨(s.data.reverse.dropWhile (· == '/')).reverse⟩

/-- Key URI construction in GenerateSOPSConfig:
address with trailing slashes trimmed, then `/v1/`, the transit engine
path, `/keys/`, and the key name. -/
def sopsKeyURI (vaultAddress transitPath keyName : String) : String :=
  trimRightSlashes vaultAddress ++ "/v1/" ++ transitPath ++ "/keys/" ++ keyName

/-- Creation-rule list built by GenerateSOPSConfig: a single catch-all rule
with empty path_regex when the regex list is empty, else one rule per
regex in the given order. -/
def generateSOPSRules (uri : String) : List String → List sopsCreationRule
  | [] => [⟨"", uri⟩]
  | rs => rs.map fun re => ⟨re, uri⟩

/-- Modelled from the spec: the yaml.v3 rendering (SetIndent 2) of one
creation rule inside the `creation_rules` sequence; the `omitempty` tag
omits the `path_regex` key entirely when the field is the empty string. -/
def renderRule (r : sopsCreationRule) : List Char :=
  if r.PathRegex = "" then
    ("  - hc_vault_transit_uri: " ++ r.HCVaultTransitURI ++ "\n").data
  else
    ("  - path_regex: " ++ r.PathRegex ++ "\n    hc_vault_transit_uri: " ++
      r.HCVaultTransitURI ++ "\n").data

/-- GenerateSOPSConfig from `config.go`: build the key URI, the creation
rules and the rendered .sops.yaml document.  The Go slice `pathRegexes` is
modelled as an Option: `none` is a nil slice, `some rs` a non-nil one;
the code only ever asks `len(pathRegexes) == 0`, which treats nil and
empty alike. -/
def GenerateSOPSConfig (vaultAddress transitPath keyName : String)
    (pathRegexes : Option (List String)) : List Char :=
  "creation_rules:\n".data ++
    ((generateSOPSRules (sopsKeyURI vaultAddress transitPath keyName)
      (pathRegexes.getD [])).map renderRule).flatten

/-- C7: nil and empty path-regex lists produce byte-identical output —
exactly one catch-all creation rule carrying the key URI whose rendering
contains no path_regex field at all; a non-empty list yields exactly one
rule per regex, in the given order. -/
theorem C7_config_rules_nil_empty_and_order
    (vaultAddress transitPath keyName : String) :
    (GenerateSOPSConfig vaultAddress transitPath keyName none =
      GenerateSOPSConfig vaultAddress transitPath keyName (some [])) ∧
    (∀ uri, generateSOPSRules uri [] = [⟨"", uri⟩]) ∧
    (GenerateSOPSConfig vaultAddress transitPath keyName none =
      "creation_rules:\n".data ++ "  - hc_vault_transit_uri: ".data ++
        (sopsKeyURI vaultAddress transitPath keyName).data ++ ['\n']) ∧
    (∀ uri re rs, generateSOPSRules uri (re :: rs) =
      (re :: rs).map fun r => ⟨r, uri⟩) ∧
    (∀ uri re rs, (generateSOPSRules uri (re :: rs)).length = (re :: rs).length) := by
  refine ⟨rfl, fun _ => rfl, ?_, fun _ _ _ => rfl, fun _ _ _ => by simp [generateSOPSRules]⟩
  simp [GenerateSOPSConfig, generateSOPSRules, renderRule, String.data_append]

/-- Trailing-slash runs are absorbed by trimRightSlashes. -/
theorem dropWhile_replicate_append (n : Nat) (x : List Char) :
    List.dropWhile (· == '/') (List.replicate n '/' ++ x) =
      List.dropWhile (· == '/') x := by
  induction n with
  | zero => simp
  | succ k ih => simpa [List.replicate_succ, List.dropWhile] using ih

/-- After dropWhile the head no longer satisfies the predicate. -/
theorem head?_dropWhile_slash (x : List Char) :
    (List.dropWhile (· == '/') x).head? ≠ some '/' := by
  induction x with
  | nil => simp
  | cons a t ih =>
      by_cases h : a = '/'
      · simpa [List.dropWhile, h] using ih
      · have hb : (a == '/') = false := by simp [h]
        simp [List.dropWhile, hb, h]

/-- Appending a run of trailing slashes does not change the trimmed
address. -/
theorem trimRightSlashes_append_slashes (a : String) (n : Nat) :
    trimRightSlashes (a ++ ⟨List.replicate n '/'⟩) = trimRightSlashes a := by
  have hdata : (a ++ (⟨List.replicate n '/'⟩ : String)).data.reverse.dropWhile (· == '/') =
      a.data.reverse.dropWhile (· == '/') := by
    rw [String.data_append]
    show ((a.data ++ List.replicate n '/').reverse.dropWhile (· == '/')) = _
    rw [List.reverse_append, List.reverse_replicate]
    exact dropWhile_replicate_append n a.data.reverse
  simp only [trimRightSlashes, hdata]

/-- C8: the key URI of every emitted creation rule equals the base address
with all trailing '/' characters trimmed, followed by
`/v1/<transitPath>/keys/<keyName>`; appending any run of trailing slashes
to the base address leaves the URI unchanged (no doubled slash), and the
trimmed base never ends in '/'. -/
theorem C8_key_uri_shape_and_slash_trimming
    (vaultAddress transitPath keyName : String) (pathRegexes : Option (List String)) :
    (∀ r ∈ generateSOPSRules (sopsKeyURI vaultAddress transitPath keyName)
        (pathRegexes.getD []),
      r.HCVaultTransitURI =
        trimRightSlashes vaultAddress ++ "/v1/" ++ transitPath ++ "/keys/" ++ keyName) ∧
    (∀ n, sopsKeyURI (vaultAddress ++ ⟨List.replicate n '/'⟩) transitPath keyName =
      sopsKeyURI vaultAddress transitPath keyName) ∧
    (trimRightSlashes vaultAddress).data.getLast? ≠ some '/' := by
  refine ⟨?_, ?_, ?_⟩
  · intro r hr
    cases hl : pathRegexes.getD [] with
    | nil =>
        rw [hl] at hr
        simp only [generateSOPSRules, List.mem_singleton] at hr
        subst hr
        rfl
    | cons re rs =>
        rw [hl] at hr
        simp only [generateSOPSRules, List.mem_map] at hr
        obtain ⟨a, _, rfl⟩ := hr
        rfl
  · intro n
    simp only [sopsKeyURI, trimRightSlashes_append_slashes]
  · simp only [trimRightSlashes]
    rw [List.getLast?_reverse]
    exact head?_dropWhile_slash vaultAddress.data.reverse

/-- Witness for C8: a base address with two trailing slashes; the single
catch-all rule built from it carries the trimmed URI. -/
theorem C8_key_uri_shape_and_slash_trimming_witness :
    (⟨"", sopsKeyURI "http://v//" "transit" "k"⟩ : sopsCreationRule) ∈
      generateSOPSRules (sopsKeyURI "http://v//" "transit" "k")
        ((none : Option (List String)).getD []) ∧
    (⟨"", sopsKeyURI "http://v//" "transit" "k"⟩ : sopsCreationRule).HCVaultTransitURI =
      trimRightSlashes "http://v//" ++ "/v1/" ++ "transit" ++ "/keys/" ++ "k" :=
  ⟨by decide,
    (C8_key_uri_shape_and_slash_trimming "http://v//" "transit" "k" none).1
      ⟨"", sopsKeyURI "http://v//" "transit" "k"⟩ (by decide)⟩

end SopsProvider

namespace SopsProvider

/-- Dynamic values inside a Vault response data map (Go interface values:
either a string or something of another type). -/
inductive VaultValue where
  | str (s : String)
  | other
deriving DecidableEq, Repr

/-- The data map of a Vault API Secret (`secret.Data`). -/
structure Secret where
  Data : List (String × VaultValue)
deriving DecidableEq, Repr

/-- Modelled from the spec: outcome of `client.Logical().Write` on the
transit encrypt endpoint — a transport/endpoint error, a parsed response
body, or, for an empty/absent response body, neither: the vault api client
then returns a nil Secret together with a nil error (`.ok none`). -/
inductive WriteOutcome where
  | err (e : String)
  | ok (secret : Option Secret)
deriving DecidableEq, Repr

/-- Result of running a Go function that may return a value, return an
error, or panic at runtime. -/
inductive GoResult (α : Type) where
  | ok (a : α)
  | err (e : String)
  | panics (msg : String)
deriving DecidableEq, Repr

/-- wrapDataKey from `encrypt.go`: a Write error is wrapped with the
request path and returned; otherwise the code reads
`secret.Data["ciphertext"]` and errors unless it is a string.  The code
performs no nil check on `secret` (unlike `AppRoleLogin` in the same
file), so a nil Secret — the empty-response-body case — dereferences a nil
pointer: modelled as a panic. -/
def wrapDataKey (transitPath keyName : String) (resp : WriteOutcome) : GoResult String :=
  match resp with
  | .err e =>
      .err ("vault transit encrypt (" ++ transitPath ++ "/encrypt/" ++ keyName ++ "): " ++ e)
  | .ok none => .panics "runtime error: invalid memory address or nil pointer dereference"
  | .ok (some secret) =>
    match secret.Data.lookup "ciphertext" with
    | some (.str ct) => .ok ct
    | _ => .err "unexpected vault response: ciphertext not a string"

/-- C9 (code bug): failed calls and responses of unexpected shape (missing
or non-string ciphertext field) do surface a key-wrap error — but an
empty/absent response body, for which the vault client yields a nil Secret
and nil error, makes `wrapDataKey` dereference the nil Secret and panic
instead of returning an error, contradicting the claim that the operation
never crashes. -/
theorem C9_wrap_errors_surface_but_nil_secret_panics :
    (∀ tp kn e, wrapDataKey tp kn (.err e) =
      .err ("vault transit encrypt (" ++ tp ++ "/encrypt/" ++ kn ++ "): " ++ e)) ∧
    (∀ tp kn, wrapDataKey tp kn (.ok (some ⟨[]⟩)) =
      .err "unexpected vault response: ciphertext not a string") ∧
    (∀ tp kn, wrapDataKey tp kn (.ok (some ⟨[("ciphertext", .other)]⟩)) =
      .err "unexpected vault response: ciphertext not a string") ∧
    (∀ tp kn ct, wrapDataKey tp kn (.ok (some ⟨[("ciphertext", .str ct)]⟩)) = .ok ct) ∧
    (∀ tp kn, wrapDataKey tp kn (.ok none) =
      .panics "runtime error: invalid memory address or nil pointer dereference") :=
  ⟨fun _ _ _ => rfl, fun _ _ => rfl, fun _ _ => by simp [wrapDataKey, List.lookup],
    fun _ _ _ => by simp [wrapDataKey, List.lookup], fun _ _ => rfl⟩

end SopsProvider

namespace SopsProvider

/-- JSON string literal: the key or value wrapped in double quotes. -/
def strLit (s : String) : List Char := '"' :: (s.data ++ ['"'])

/-- Modelled from the spec: the per-leaf envelope string
`ENC[AES256_GCM,data:<b64>,iv:<b64>,tag:<b64>,type:<tag>]` (§4.1); base64
is external, abstracted as `b64`. -/
def encPayload (b64 : Nat → List Char) (ct iv tag : Nat) (ty : String) : List Char :=
  "ENC[AES256_GCM,data:".data ++ b64 ct ++ ",iv:".data ++ b64 iv ++
    ",tag:".data ++ b64 tag ++ ",type:".data ++ ty.data ++ "]".data

mutual
/-- Modelled from the spec: the JSON store serializer (compact — "no
inserted whitespace"; §4.1): objects/arrays with no spaces or newlines,
encrypted leaves as ENC[...] strings; number rendering is external,
abstracted as `ic`. -/
def jsonEmitTree (b64 : Nat → List Char) (ic : Int → List Char) : EncTree → List Char
  | .scalar (.str s) => strLit s
  | .scalar (.num n) => ic n
  | .scalar (.boolean true) => "true".data
  | .scalar (.boolean false) => "false".data
  | .scalar .null => "null".data
  | .encLeaf ct iv tag ty => '"' :: (encPayload b64 ct iv tag ty ++ ['"'])
  | .obj fs => '{' :: (jsonEmitFields b64 ic fs ++ ['}'])
  | .arr xs => '[' :: (jsonEmitItems b64 ic xs ++ [']'])

/-- Object body: first member without a separating comma. -/
def jsonEmitFields (b64 : Nat → List Char) (ic : Int → List Char) : EncFields → List Char
  | .nil => []
  | .cons key v rest =>
      strLit key ++ (':' :: (jsonEmitTree b64 ic v ++ jsonEmitFieldsRest b64 ic rest))

/-- Object body continuation: a comma before every further member. -/
def jsonEmitFieldsRest (b64 : Nat → List Char) (ic : Int → List Char) : EncFields → List Char
  | .nil => []
  | .cons key v rest =>
      ',' :: (strLit key ++ (':' :: (jsonEmitTree b64 ic v ++ jsonEmitFieldsRest b64 ic rest)))

/-- Array body: first element without a separating comma. -/
def jsonEmitItems (b64 : Nat → List Char) (ic : Int → List Char) : EncItems → List Char
  | .nil => []
  | .cons v rest => jsonEmitTree b64 ic v ++ jsonEmitItemsRest b64 ic rest

/-- Array body continuation: a comma before every further element. -/
def jsonEmitItemsRest (b64 : Nat → List Char) (ic : Int → List Char) : EncItems → List Char
  | .nil => []
  | .cons v rest => ',' :: (jsonEmitTree b64 ic v ++ jsonEmitItemsRest b64 ic rest)
end

/-- Conditionally include a metadata field. -/
def consIf (b : Bool) (k : String) (v : EncTree) (r : EncFields) : EncFields :=
  if b then .cons k v r else r

/-- Modelled from the spec: the `sops` metadata mapping of the artifact —
`hc_vault` (one entry with vault_address, engine_path, key_name, enc),
`version`, and the scope-policy fields when set (§6). -/
def metaFields (md : Metadata) : EncFields :=
  .cons "hc_vault"
    (.arr (.cons (.obj
      (.cons "vault_address" (.scalar (.str md.VaultAddress))
        (.cons "engine_path" (.scalar (.str md.EnginePath))
          (.cons "key_name" (.scalar (.str md.KeyName))
            (.cons "enc" (.scalar (.str md.EncryptedKey)) .nil))))) .nil))
    (.cons "version" (.scalar (.str md.Version))
      (consIf (md.UnencryptedSuffix != "") "unencrypted_suffix"
          (.scalar (.str md.UnencryptedSuffix))
        (consIf (md.EncryptedSuffix != "") "encrypted_suffix"
            (.scalar (.str md.EncryptedSuffix))
          (consIf (md.UnencryptedRegex != "") "unencrypted_regex"
              (.scalar (.str md.UnencryptedRegex))
            (consIf (md.EncryptedRegex != "") "encrypted_regex"
                (.scalar (.str md.EncryptedRegex)) .nil)))))

/-- Concatenation of field lists. -/
def appendFields : EncFields → EncFields → EncFields
  | .nil, g => g
  | .cons k v r, g => .cons k v (appendFields r g)

/-- Modelled from the spec: the emitted artifact — the document's own
fields followed by a top-level "sops" mapping carrying the metadata. -/
def artifactFields (eb : EncFields) (md : Metadata) : EncFields :=
  appendFields eb (.cons "sops" (.obj (metaFields md)) .nil)

/-- Compact JSON emission of the whole artifact (the EmitEncryptedFile of
the JSON store). -/
def jsonEmit (b64 : Nat → List Char) (ic : Int → List Char)
    (eb : EncFields) (md : Metadata) : List Char :=
  jsonEmitTree b64 ic (.obj (artifactFields eb md))

/-- Newline plus the two-space indentation for depth `d`. -/
def nlChunk (d : Nat) : List Char := '\n' :: List.replicate (2 * d) ' '

/-- Modelled from the spec: Go `encoding/json.Indent` with a two-space
indent (the pretty-printing step of EncryptToJSON).  State: current depth,
a pending-indent flag set after an opening bracket, and in-string/escape
tracking so string contents are copied verbatim.  Newlines are emitted
only through `nlChunk`, i.e. always followed by 2·depth spaces. -/
def jsonIndentAux : List Char → Nat → Bool → Bool → Bool → List Char
  | [], _, _, _, _ => []
  | c :: rest, d, needNL, inStr, esc =>
    if inStr then
      c :: jsonIndentAux rest d needNL (if esc then true else c != '"')
        (if esc then false else c == '\\')
    else
      let fire := needNL && c != '}' && c != ']'
      let pre : List Char := if fire then nlChunk (d + 1) else []
      let d1 := if fire then d + 1 else d
      let nn1 := if fire then false else needNL
      if c == '{' || c == '[' then pre ++ c :: jsonIndentAux rest d1 true false false
      else if c == ',' then pre ++ c :: (nlChunk d1 ++ jsonIndentAux rest d1 nn1 false false)
      else if c == ':' then pre ++ c :: ' ' :: jsonIndentAux rest d1 nn1 false false
      else if c == '}' || c == ']' then
        if nn1 then pre ++ c :: jsonIndentAux rest d1 false false false
        else pre ++ (nlChunk (d1 - 1) ++ c :: jsonIndentAux rest (d1 - 1) false false false)
      else if c == '"' then pre ++ c :: jsonIndentAux rest d1 nn1 true false
      else pre ++ c :: jsonIndentAux rest d1 nn1 false false

/-- Entry point of the indenter: depth 0, no pending indent, outside any
string. -/
def jsonIndent (src : List Char) : List Char := jsonIndentAux src 0 false false false

end SopsProvider

namespace SopsProvider

/-- Whitespace test for serialized output: true when the characters
contain neither a space nor a newline. -/
def noWS (l : List Char) : Bool := l.all fun c => !(c == ' ') && !(c == '\n')

theorem noWS_iff (l : List Char) : noWS l = true ↔ (' ' ∉ l ∧ '\n' ∉ l) := by
  simp only [noWS, List.all_eq_true, Bool.and_eq_true, Bool.not_eq_true', beq_eq_false_iff_ne]
  constructor
  · intro h
    exact ⟨fun hm => (h ' ' hm).1 rfl, fun hm => (h '\n' hm).2 rfl⟩
  · rintro ⟨h1, h2⟩ c hc
    exact ⟨fun he => h1 (he ▸ hc), fun he => h2 (he ▸ hc)⟩

theorem noWS_nil : noWS [] = true := by decide

theorem noWS_append (a b : List Char) : noWS (a ++ b) = (noWS a && noWS b) := by
  simp [noWS, List.all_append]

theorem noWS_cons (c : Char) (l : List Char) :
    noWS (c :: l) = ((!(c == ' ') && !(c == '\n')) && noWS l) := by
  simp [noWS]

theorem noWS_strLit (s : String) (h : noWS s.data = true) : noWS (strLit s) = true := by
  simp [strLit, noWS, List.all_append] at h ⊢
  exact h

theorem noWS_encTag1 : noWS "ENC[AES256_GCM,data:".data = true := by decide

theorem noWS_encTag2 : noWS ",iv:".data = true := by decide

theorem noWS_encTag3 : noWS ",tag:".data = true := by decide

theorem noWS_encTag4 : noWS ",type:".data = true := by decide

theorem noWS_encTag5 : noWS "]".data = true := by decide

theorem noWS_litTrue : noWS "true".data = true := by decide

theorem noWS_litFalse : noWS "false".data = true := by decide

theorem noWS_litNull : noWS "null".data = true := by decide

mutual
/-- Embedded strings of an encrypted tree are whitespace-free. -/
def wsFreeTree : EncTree → Bool
  | .scalar (.str s) => noWS s.data
  | .scalar _ => true
  | .encLeaf _ _ _ ty => noWS ty.data
  | .obj fs => wsFreeFields fs
  | .arr xs => wsFreeItems xs

/-- Whitespace-free keys and values of mapping fields. -/
def wsFreeFields : EncFields → Bool
  | .nil => true
  | .cons k v r => noWS k.data && wsFreeTree v && wsFreeFields r

/-- Whitespace-free sequence elements. -/
def wsFreeItems : EncItems → Bool
  | .nil => true
  | .cons v r => wsFreeTree v && wsFreeItems r
end

mutual
theorem noWS_jsonEmitTree (b64 : Nat → List Char) (ic : Int → List Char)
    (hb : ∀ n, noWS (b64 n) = true) (hic : ∀ n, noWS (ic n) = true)
    (t : EncTree) (ht : wsFreeTree t = true) :
    noWS (jsonEmitTree b64 ic t) = true := by
  cases t with
  | scalar v =>
      cases v with
      | str s =>
          simp only [wsFreeTree] at ht
          exact noWS_strLit s ht
      | num n => simpa [jsonEmitTree] using hic n
      | boolean b => cases b <;> (simp [jsonEmitTree]; decide)
      | null =>
          simp [jsonEmitTree]
          decide
  | encLeaf ct iv tag ty =>
      simp only [wsFreeTree] at ht
      simp [jsonEmitTree, encPayload, noWS_cons, noWS_append, noWS_nil,
        hb ct, hb iv, hb tag, ht, noWS_encTag1, noWS_encTag2, noWS_encTag3,
        noWS_encTag4, noWS_encTag5]
  | obj fs =>
      simp only [wsFreeTree] at ht
      simp [jsonEmitTree, noWS_cons, noWS_append, noWS_nil,
        noWS_jsonEmitFields b64 ic hb hic fs ht]
  | arr xs =>
      simp only [wsFreeTree] at ht
      simp [jsonEmitTree, noWS_cons, noWS_append, noWS_nil,
        noWS_jsonEmitItems b64 ic hb hic xs ht]

theorem noWS_jsonEmitFields (b64 : Nat → List Char) (ic : Int → List Char)
    (hb : ∀ n, noWS (b64 n) = true) (hic : ∀ n, noWS (ic n) = true)
    (fs : EncFields) (hf : wsFreeFields fs = true) :
    noWS (jsonEmitFields b64 ic fs) = true := by
  cases fs with
  | nil => simp [jsonEmitFields, noWS_nil]
  | cons k v r =>
      simp only [wsFreeFields, Bool.and_eq_true] at hf
      simp [jsonEmitFields, noWS_cons, noWS_append, noWS_strLit k hf.1.1,
        noWS_jsonEmitTree b64 ic hb hic v hf.1.2,
        noWS_jsonEmitFieldsRest b64 ic hb hic r hf.2]

theorem noWS_jsonEmitFieldsRest (b64 : Nat → List Char) (ic : Int → List Char)
    (hb : ∀ n, noWS (b64 n) = true) (hic : ∀ n, noWS (ic n) = true)
    (fs : EncFields) (hf : wsFreeFields fs = true) :
    noWS (jsonEmitFieldsRest b64 ic fs) = true := by
  cases fs with
  | nil => simp [jsonEmitFieldsRest, noWS_nil]
  | cons k v r =>
      simp only [wsFreeFields, Bool.and_eq_true] at hf
      simp [jsonEmitFieldsRest, noWS_cons, noWS_append, noWS_strLit k hf.1.1,
        noWS_jsonEmitTree b64 ic hb hic v hf.1.2,
        noWS_jsonEmitFieldsRest b64 ic hb hic r hf.2]

theorem noWS_jsonEmitItems (b64 : Nat → List Char) (ic : Int → List Char)
    (hb : ∀ n, noWS (b64 n) = true) (hic : ∀ n, noWS (ic n) = true)
    (xs : EncItems) (hx : wsFreeItems xs = true) :
    noWS (jsonEmitItems b64 ic xs) = true := by
  cases xs with
  | nil => simp [jsonEmitItems, noWS_nil]
  | cons v r =>
      simp only [wsFreeItems, Bool.and_eq_true] at hx
      simp [jsonEmitItems, noWS_append,
        noWS_jsonEmitTree b64 ic hb hic v hx.1,
        noWS_jsonEmitItemsRest b64 ic hb hic r hx.2]

theorem noWS_jsonEmitItemsRest (b64 : Nat → List Char) (ic : Int → List Char)
    (hb : ∀ n, noWS (b64 n) = true) (hic : ∀ n, noWS (ic n) = true)
    (xs : EncItems) (hx : wsFreeItems xs = true) :
    noWS (jsonEmitItemsRest b64 ic xs) = true := by
  cases xs with
  | nil => simp [jsonEmitItemsRest, noWS_nil]
  | cons v r =>
      simp only [wsFreeItems, Bool.and_eq_true] at hx
      simp [jsonEmitItemsRest, noWS_cons, noWS_append,
        noWS_jsonEmitTree b64 ic hb hic v hx.1,
        noWS_jsonEmitItemsRest b64 ic hb hic r hx.2]
end

end SopsProvider

namespace SopsProvider

/-- The emitted artifact always opens with a brace and the first key's
quote: the root object is never empty because a "sops" member is always
appended. -/
theorem jsonEmit_head (b64 : Nat → List Char) (ic : Int → List Char)
    (eb : EncFields) (md : Metadata) :
    ∃ rest, jsonEmit b64 ic eb md = '{' :: '"' :: rest := by
  cases eb with
  | nil => exact ⟨_, rfl⟩
  | cons k v r => exact ⟨_, rfl⟩

/-- Indenting an artifact that opens with brace-and-quote yields a newline
followed by exactly two spaces before the first member. -/
theorem jsonIndent_open_shape (rest : List Char) :
    (jsonIndent ('{' :: '"' :: rest)).take 5 = ['{', '\n', ' ', ' ', '"'] := rfl

/-- C6: on a successful encryption, EncryptToJSON with PrettyJSON=false
returns exactly the compact store output, which contains no space and no
newline at all (no inserted whitespace), provided the document's own
strings are whitespace-free; with PrettyJSON=true it returns the
two-space-indented rendering, whose lines are newline-separated with
two-space indentation (the output begins `{`, newline, two spaces, `"`,
and every newline the indenter emits carries 2·depth spaces by
construction of nlChunk). -/
theorem C6_pretty_vs_compact_output
    (vaultAddress transitPath keyName : String) (o : EncryptOpts)
    (b64 : Nat → List Char) (ic : Int → List Char)
    (parseRes : Except String PlainFields) (keygenRes : Except String Nat)
    (wrapRes : Nat → Except String String)
    (encRes : PlainFields → Nat → Except String EncFields)
    (b : PlainFields) (dk : Nat) (w : String) (eb : EncFields)
    (hb : ∀ n, noWS (b64 n) = true) (hic : ∀ n, noWS (ic n) = true)
    (hp : parseRes = .ok b) (hk : keygenRes = .ok dk)
    (hw : wrapRes dk = .ok w) (he : encRes b dk = .ok eb)
    (hws : wsFreeTree (.obj (artifactFields eb
      (mkMetadata vaultAddress transitPath keyName w o))) = true) :
    (o.PrettyJSON = false →
      (EncryptToJSON vaultAddress transitPath keyName o parseRes keygenRes wrapRes encRes
          (fun eb2 md2 => .ok (jsonEmit b64 ic eb2 md2)) (fun cs => .ok (jsonIndent cs))).1 =
        (jsonEmit b64 ic eb (mkMetadata vaultAddress transitPath keyName w o), none) ∧
      ' ' ∉ jsonEmit b64 ic eb (mkMetadata vaultAddress transitPath keyName w o) ∧
      '\n' ∉ jsonEmit b64 ic eb (mkMetadata vaultAddress transitPath keyName w o)) ∧
    (o.PrettyJSON = true →
      (EncryptToJSON vaultAddress transitPath keyName o parseRes keygenRes wrapRes encRes
          (fun eb2 md2 => .ok (jsonEmit b64 ic eb2 md2)) (fun cs => .ok (jsonIndent cs))).1 =
        (jsonIndent (jsonEmit b64 ic eb (mkMetadata vaultAddress transitPath keyName w o)),
          none) ∧
      (jsonIndent (jsonEmit b64 ic eb
        (mkMetadata vaultAddress transitPath keyName w o))).take 5 =
        ['{', '\n', ' ', ' ', '"']) := by
  have hnows := noWS_jsonEmitTree b64 ic hb hic
    (.obj (artifactFields eb (mkMetadata vaultAddress transitPath keyName w o))) hws
  have hmem := (noWS_iff _).mp hnows
  constructor
  · intro hpf
    refine ⟨?_, by simpa [jsonEmit] using hmem.1, by simpa [jsonEmit] using hmem.2⟩
    simp [EncryptToJSON, encryptDocument, hp, hk, hw, he, hpf, jsonEmit]
  · intro hpt
    constructor
    · simp [EncryptToJSON, encryptDocument, hp, hk, hw, he, hpt, jsonEmit]
    · obtain ⟨rest, hr⟩ :=
        jsonEmit_head b64 ic eb (mkMetadata vaultAddress transitPath keyName w o)
      rw [hr]
      exact jsonIndent_open_shape rest

theorem noWS_constA : noWS ['A'] = true := by decide

theorem noWS_const0 : noWS ['0'] = true := by decide

/-- Witness for C6 at a concrete successful pretty run: the result is the
indented rendering and it opens with newline-plus-two-space indentation. -/
theorem C6_pretty_vs_compact_output_witness :
    (EncryptToJSON "http://v" "transit" "k" ⟨"", "", "", "", true⟩ (.ok .nil) (.ok 0)
        (fun _ => .ok "t") (fun _ _ => .ok .nil)
        (fun eb2 md2 => .ok (jsonEmit (fun _ => ['A']) (fun _ => ['0']) eb2 md2))
        (fun cs => .ok (jsonIndent cs))).1 =
      (jsonIndent (jsonEmit (fun _ => ['A']) (fun _ => ['0']) .nil
        (mkMetadata "http://v" "transit" "k" "t" ⟨"", "", "", "", true⟩)), none) ∧
    (jsonIndent (jsonEmit (fun _ => ['A']) (fun _ => ['0']) .nil
      (mkMetadata "http://v" "transit" "k" "t" ⟨"", "", "", "", true⟩))).take 5 =
      ['{', '\n', ' ', ' ', '"'] :=
  (C6_pretty_vs_compact_output "http://v" "transit" "k" ⟨"", "", "", "", true⟩
    (fun _ => ['A']) (fun _ => ['0']) (.ok .nil) (.ok 0) (fun _ => .ok "t")
    (fun _ _ => .ok .nil) .nil 0 "t" .nil
    (fun _ => noWS_constA) (fun _ => noWS_const0) rfl rfl rfl rfl (by decide)).2 rfl

end SopsProvider
